import Mathlib

/-!
Verification of the HarvestHub church-outreach application against its
specification.

The development shallowly embeds the original logic of the application:

* the data-sanitization layer `scrub` / `safeStringify` (App.tsx),
  modelled over an explicit heap of JavaScript objects so that reference
  cycles and shared sub-objects are representable;
* the authentication flows of `Login.tsx` (`handleAction`, remote and
  local branches) and the `onAuthStateChanged` callback of `App.tsx`;
* the prospect mutations of `ProspectDetail.tsx` and the AI-analysis
  wrapper `analyzePreachingNotes` of `geminiService.ts` together with
  `handleSubmit` of `NewOutreach.tsx`;
* the local read-merge-write patch path of `updateUserStatus` (App.tsx).
-/

/-! ## JavaScript value model

A JavaScript runtime value is a primitive or a reference into a heap of
objects.  The heap makes object identity, cycles and sharing explicit:
`JSVal.ref a` is a pointer to heap slot `a`.  `vbig` models a BigInt
primitive (`typeof x === "bigint"`, so `scrub` passes it through while
`JSON.stringify` throws on it).  `vfn` and `vsym` model function and
symbol values (`typeof` is `"function"` resp. `"symbol"`, not
`"object"`, so the first guard of `scrub` returns them unchanged even
though they are not plain data); the `Nat` is an opaque identity. -/

inductive JSVal where
  | vundef
  | vnull
  | vbool (b : Bool)
  | vnum (n : Int)
  | vstr (s : String)
  | vbig (n : Int)
  | vfn (f : Nat)
  | vsym (s : Nat)
  | ref (a : Nat)
deriving DecidableEq

/-- Heap node: a JavaScript object.  `arrN` is an array, `objN` a plain
object (its own enumerable string-keyed properties in insertion order,
keys pairwise distinct as in any JS object), and `exoticN` any
non-plain object (class instance, DOM node, SDK handle, `Date`, ...) —
exactly the objects for which the `isPlain` test of `scrub` is false. -/
inductive Node where
  | arrN (elems : List JSVal)
  | objN (fields : List (String × JSVal))
  | exoticN (tag : String)
deriving DecidableEq

/-- A heap is a list of nodes; addresses are indices. -/
abbrev Heap := List Node

/-- Sanitized output value.  `scrub` builds fresh arrays and objects, so
its result is an ordinary tree (no references). -/
inductive SVal where
  | sundef
  | snull
  | sbool (b : Bool)
  | snum (n : Int)
  | sstr (s : String)
  | sbig (n : Int)
  | sfn (f : Nat)
  | ssym (s : Nat)
  | sarr (elems : List SVal)
  | sobj (fields : List (String × SVal))

/-- Test for the JavaScript `undefined` result of `scrub`. -/
def SVal.isUndef : SVal → Bool
  | .sundef => true
  | _ => false

/-! ## Termination measure for `scrub`

The `seen` WeakSet only ever grows, and each recursive descent into an
unvisited object inserts its address, so the number of heap addresses
not yet in `seen` decreases. -/

/-- Number of heap addresses not yet in the visited set. -/
def unseenCount (heap : Heap) (seen : Finset Nat) : Nat :=
  ((Finset.range heap.length).filter (fun a => a ∉ seen)).card

theorem unseenCount_anti (heap : Heap) {s t : Finset Nat} (h : s ⊆ t) :
    unseenCount heap t ≤ unseenCount heap s := by
  apply Finset.card_le_card
  intro a ha
  simp only [Finset.mem_filter, Finset.mem_range] at ha ⊢
  exact ⟨ha.1, fun hm => ha.2 (h hm)⟩

theorem unseenCount_insert_lt (heap : Heap) {seen : Finset Nat} {a : Nat}
    (ha : a < heap.length) (hs : a ∉ seen) :
    unseenCount heap (insert a seen) < unseenCount heap seen := by
  apply Finset.card_lt_card
  constructor
  · intro b hb
    simp only [Finset.mem_filter, Finset.mem_range, Finset.mem_insert] at hb ⊢
    exact ⟨hb.1, fun hm => hb.2 (Or.inr hm)⟩
  · intro hsub
    have hmem : a ∈ (Finset.range heap.length).filter (fun b => b ∉ seen) :=
      Finset.mem_filter.mpr ⟨Finset.mem_range.mpr ha, hs⟩
    have hni : a ∉ insert a seen := (Finset.mem_filter.mp (hsub hmem)).2
    exact hni (Finset.mem_insert_self a seen)

theorem lt_length_of_get?_eq_some {l : List Node} {n : Nat} {x : Node}
    (h : l.get? n = some x) : n < l.length := by
  rcases List.get?_eq_some.mp h with ⟨h1, _⟩
  exact h1

/-! ## The sanitizer `scrub` (App.tsx, lines 21-54)

The JavaScript function is

```
const scrub = (obj, seen = new WeakSet()) => {
  if (obj === null || typeof obj !== 'object') return obj;
  if (seen.has(obj)) return undefined;
  if (Array.isArray(obj)) {
    seen.add(obj);
    return obj.map(item => scrub(item, seen)).filter(v => v !== undefined);
  }
  const isPlain = ...;          // plain objects = objN, others = exoticN
  if (!isPlain) return undefined;
  seen.add(obj);
  const clean = {}; ...         // keep keys whose scrubbed value is defined
  return hasProperties ? clean : {};
};
```

`seen` is one mutable WeakSet shared by the whole call, so it is
threaded through the recursion and returned.  `scrubItems` is the
`map`/`filter` over array elements and `scrubFields` the `for ... in`
loop over object fields; both pass the updated set along to the next
sibling, mirroring the shared mutable set.  (The union `seen ∪ r1.2`
written at the sibling step equals `r1.2` itself because the returned
set always contains the set passed in — `scrub_seen_mono` below — it is
phrased as a union only so that the termination argument does not
depend on that lemma.) -/

mutual

def scrubVal (heap : Heap) (seen : Finset Nat) (v : JSVal) : SVal × Finset Nat :=
  match v with
  | .vnull => (.snull, seen)
  | .vundef => (.sundef, seen)
  | .vbool b => (.sbool b, seen)
  | .vnum n => (.snum n, seen)
  | .vstr s => (.sstr s, seen)
  | .vbig n => (.sbig n, seen)
  | .vfn f => (.sfn f, seen)
  | .vsym s => (.ssym s, seen)
  | .ref a =>
    if ha : a ∈ seen then (.sundef, seen)
    else
      match hnode : heap.get? a with
      | none => (.sundef, seen)
      | some (.arrN elems) =>
        let r := scrubItems heap (insert a seen) elems
        (.sarr r.1, r.2)
      | some (.objN fields) =>
        let r := scrubFields heap (insert a seen) fields
        (.sobj r.1, r.2)
      | some (.exoticN _) => (.sundef, seen)
termination_by (unseenCount heap seen, 0)
decreasing_by
  · exact Prod.Lex.left _ _
      (unseenCount_insert_lt heap (lt_length_of_get?_eq_some hnode) ha)
  · exact Prod.Lex.left _ _
      (unseenCount_insert_lt heap (lt_length_of_get?_eq_some hnode) ha)

def scrubItems (heap : Heap) (seen : Finset Nat) (items : List JSVal) :
    List SVal × Finset Nat :=
  match items with
  | [] => ([], seen)
  | it :: rest =>
    let r1 := scrubVal heap seen it
    let r2 := scrubItems heap (seen ∪ r1.2) rest
    ((if r1.1.isUndef then r2.1 else r1.1 :: r2.1), r2.2)
termination_by (unseenCount heap seen, items.length + 1)
decreasing_by
  · exact Prod.Lex.right _ (by omega)
  · rcases eq_or_lt_of_le (unseenCount_anti heap Finset.subset_union_left) with h | h
    · rw [h]
      exact Prod.Lex.right _ (by simp)
    · exact Prod.Lex.left _ _ h

def scrubFields (heap : Heap) (seen : Finset Nat) (fields : List (String × JSVal)) :
    List (String × SVal) × Finset Nat :=
  match fields with
  | [] => ([], seen)
  | kv :: rest =>
    let r1 := scrubVal heap seen kv.2
    let r2 := scrubFields heap (seen ∪ r1.2) rest
    ((if r1.1.isUndef then r2.1 else (kv.1, r1.1) :: r2.1), r2.2)
termination_by (unseenCount heap seen, fields.length + 1)
decreasing_by
  · exact Prod.Lex.right _ (by omega)
  · rcases eq_or_lt_of_le (unseenCount_anti heap Finset.subset_union_left) with h | h
    · rw [h]
      exact Prod.Lex.right _ (by simp)
    · exact Prod.Lex.left _ _ h

end

/-! ### Basic unfolding lemmas for `scrub` -/

theorem scrubVal_ref_of_mem (heap : Heap) {seen : Finset Nat} {a : Nat}
    (h : a ∈ seen) : scrubVal heap seen (.ref a) = (.sundef, seen) := by
  simp [scrubVal, h]

theorem scrubVal_ref_exotic (heap : Heap) {seen : Finset Nat} {a : Nat} {tag : String}
    (h : a ∉ seen) (hn : heap.get? a = some (.exoticN tag)) :
    scrubVal heap seen (.ref a) = (.sundef, seen) := by
  simp only [scrubVal]
  rw [dif_neg h]
  split <;> simp_all

theorem scrubVal_ref_obj (heap : Heap) {seen : Finset Nat} {a : Nat}
    {fields : List (String × JSVal)}
    (h : a ∉ seen) (hn : heap.get? a = some (.objN fields)) :
    scrubVal heap seen (.ref a) =
      (.sobj (scrubFields heap (insert a seen) fields).1,
       (scrubFields heap (insert a seen) fields).2) := by
  simp only [scrubVal]
  rw [dif_neg h]
  split <;> simp_all

theorem scrubVal_ref_arr (heap : Heap) {seen : Finset Nat} {a : Nat}
    {elems : List JSVal}
    (h : a ∉ seen) (hn : heap.get? a = some (.arrN elems)) :
    scrubVal heap seen (.ref a) =
      (.sarr (scrubItems heap (insert a seen) elems).1,
       (scrubItems heap (insert a seen) elems).2) := by
  simp only [scrubVal]
  rw [dif_neg h]
  split <;> simp_all

theorem scrubFields_cons (heap : Heap) (seen : Finset Nat)
    (kv : String × JSVal) (rest : List (String × JSVal)) :
    scrubFields heap seen (kv :: rest) =
      ((if (scrubVal heap seen kv.2).1.isUndef
          then (scrubFields heap (seen ∪ (scrubVal heap seen kv.2).2) rest).1
          else (kv.1, (scrubVal heap seen kv.2).1) ::
            (scrubFields heap (seen ∪ (scrubVal heap seen kv.2).2) rest).1),
       (scrubFields heap (seen ∪ (scrubVal heap seen kv.2).2) rest).2) := by
  rw [scrubFields]

theorem scrubItems_cons (heap : Heap) (seen : Finset Nat)
    (it : JSVal) (rest : List JSVal) :
    scrubItems heap seen (it :: rest) =
      ((if (scrubVal heap seen it).1.isUndef
          then (scrubItems heap (seen ∪ (scrubVal heap seen it).2) rest).1
          else (scrubVal heap seen it).1 ::
            (scrubItems heap (seen ∪ (scrubVal heap seen it).2) rest).1),
       (scrubItems heap (seen ∪ (scrubVal heap seen it).2) rest).2) := by
  rw [scrubItems]

/-- The visited set only ever grows: the set returned by any of the
three scrubbing functions contains the set passed in.  This is the
formal counterpart of the WeakSet never being pruned. -/
theorem scrub_seen_mono (heap : Heap) :
    (∀ seen v, seen ⊆ (scrubVal heap seen v).2)
    ∧ (∀ seen fields, seen ⊆ (scrubFields heap seen fields).2)
    ∧ (∀ seen items, seen ⊆ (scrubItems heap seen items).2) := by
  refine scrubVal.mutual_induct heap
    (fun seen v => seen ⊆ (scrubVal heap seen v).2)
    (fun seen fields => seen ⊆ (scrubFields heap seen fields).2)
    (fun seen items => seen ⊆ (scrubItems heap seen items).2)
    ?_ ?_ ?_ ?_ ?_ ?_ ?_ ?_ ?_ ?_ ?_ ?_ ?_ ?_ ?_ ?_ ?_
  · intro seen
    simp [scrubVal]
  · intro seen
    simp [scrubVal]
  · intro seen b
    simp [scrubVal]
  · intro seen n
    simp [scrubVal]
  · intro seen s
    simp [scrubVal]
  · intro seen n
    simp [scrubVal]
  · intro seen f
    simp [scrubVal]
  · intro seen s
    simp [scrubVal]
  · intro seen a ha
    simp [scrubVal_ref_of_mem heap ha]
  · intro seen a ha hn
    simp only [scrubVal]
    rw [dif_neg ha]
    split
    · simp
    all_goals
      rename_i heq
      exact Option.noConfusion (hn ▸ heq)
  · intro seen a ha elems hn ih
    rw [scrubVal_ref_arr heap ha hn]
    exact (Finset.subset_insert a seen).trans ih
  · intro seen a ha fields hn ih
    rw [scrubVal_ref_obj heap ha hn]
    exact (Finset.subset_insert a seen).trans ih
  · intro seen a ha tag hn
    simp [scrubVal_ref_exotic heap ha hn]
  · intro seen
    simp [scrubFields]
  · intro seen kv rest r1 _ ih2
    rw [scrubFields_cons]
    exact Finset.subset_union_left.trans ih2
  · intro seen
    simp [scrubItems]
  · intro seen it rest r1 _ ih2
    rw [scrubItems_cons]
    exact Finset.subset_union_left.trans ih2

theorem scrubVal_ref_none (heap : Heap) {seen : Finset Nat} {a : Nat}
    (h : a ∉ seen) (hn : heap.get? a = none) :
    scrubVal heap seen (.ref a) = (.sundef, seen) := by
  simp only [scrubVal]
  rw [dif_neg h]
  split
  · rfl
  all_goals
    rename_i heq
    exact Option.noConfusion (hn ▸ heq)

/-- Keys surviving `scrubFields` under a visited set containing `a` all
come from fields whose value is not a reference to `a`: a field whose
value points back to an already-visited object is dropped. -/
theorem scrubFields_keys_drop_ref (heap : Heap) (a : Nat) :
    ∀ (fields : List (String × JSVal)) (seen : Finset Nat), a ∈ seen →
      ∀ k ∈ (scrubFields heap seen fields).1.map Prod.fst,
        k ∈ ((fields.filter (fun kv => kv.2 != JSVal.ref a)).map Prod.fst) := by
  intro fields
  induction fields with
  | nil =>
    intro seen _ k hk
    simp [scrubFields] at hk
  | cons kv rest ih =>
    intro seen hseen k hk
    rw [scrubFields_cons] at hk
    by_cases hv : kv.2 = JSVal.ref a
    · rw [hv, scrubVal_ref_of_mem heap hseen] at hk
      simp only [SVal.isUndef, if_true] at hk
      have hk2 := ih (seen ∪ seen) (Finset.mem_union_left _ hseen) k hk
      simpa [List.filter_cons, hv] using hk2
    · rcases hu : (scrubVal heap seen kv.2).1.isUndef with _ | _
      · rw [hu] at hk
        simp only [if_false, Bool.false_eq_true, if_neg] at hk
        simp only [List.map_cons, List.mem_cons] at hk
        have hpred : (kv.2 != JSVal.ref a) = true := by
          simp [bne, hv]
        rcases hk with hk | hk
        · simp [List.filter_cons, hpred, hk]
        · have hk2 := ih (seen ∪ (scrubVal heap seen kv.2).2)
            (Finset.mem_union_left _ hseen) k hk
          simp [List.filter_cons, hpred]
          right
          simpa using hk2
      · rw [hu] at hk
        simp only [if_true] at hk
        have hk2 := ih (seen ∪ (scrubVal heap seen kv.2).2)
          (Finset.mem_union_left _ hseen) k hk
        have hpred : (kv.2 != JSVal.ref a) = true := by
          simp [bne, hv]
        simp [List.filter_cons, hpred]
        right
        simpa using hk2

/-! ### The sanitized-output predicate

`noUndefInside` states the shape contract of `scrub`'s result: arrays
contain no `undefined` entries and objects no `undefined`-valued keys,
recursively. -/

mutual

def noUndefInside : SVal → Bool
  | .sarr xs => noUndefItems xs
  | .sobj kvs => noUndefFields kvs
  | _ => true

def noUndefItems : List SVal → Bool
  | [] => true
  | x :: rest => (!x.isUndef && noUndefInside x) && noUndefItems rest

def noUndefFields : List (String × SVal) → Bool
  | [] => true
  | kv :: rest => (!kv.2.isUndef && noUndefInside kv.2) && noUndefFields rest

end

/-- Every value produced by `scrub` satisfies the sanitized-output
predicate, and likewise for the element and field lists it builds. -/
theorem scrub_noUndef (heap : Heap) :
    (∀ seen v, noUndefInside (scrubVal heap seen v).1 = true)
    ∧ (∀ seen fields, noUndefFields (scrubFields heap seen fields).1 = true)
    ∧ (∀ seen items, noUndefItems (scrubItems heap seen items).1 = true) := by
  refine scrubVal.mutual_induct heap
    (fun seen v => noUndefInside (scrubVal heap seen v).1 = true)
    (fun seen fields => noUndefFields (scrubFields heap seen fields).1 = true)
    (fun seen items => noUndefItems (scrubItems heap seen items).1 = true)
    ?_ ?_ ?_ ?_ ?_ ?_ ?_ ?_ ?_ ?_ ?_ ?_ ?_ ?_ ?_ ?_ ?_
  · intro seen
    simp [scrubVal, noUndefInside]
  · intro seen
    simp [scrubVal, noUndefInside]
  · intro seen b
    simp [scrubVal, noUndefInside]
  · intro seen n
    simp [scrubVal, noUndefInside]
  · intro seen s
    simp [scrubVal, noUndefInside]
  · intro seen n
    simp [scrubVal, noUndefInside]
  · intro seen f
    simp [scrubVal, noUndefInside]
  · intro seen s
    simp [scrubVal, noUndefInside]
  · intro seen a ha
    simp [scrubVal_ref_of_mem heap ha, noUndefInside]
  · intro seen a ha hn
    simp [scrubVal_ref_none heap ha hn, noUndefInside]
  · intro seen a ha elems hn ih
    rw [scrubVal_ref_arr heap ha hn]
    simpa [noUndefInside] using ih
  · intro seen a ha fields hn ih
    rw [scrubVal_ref_obj heap ha hn]
    simpa [noUndefInside] using ih
  · intro seen a ha tag hn
    simp [scrubVal_ref_exotic heap ha hn, noUndefInside]
  · intro seen
    simp [scrubFields, noUndefFields]
  · intro seen kv rest r1 ih1 ih2
    rw [scrubFields_cons]
    rcases hu : (scrubVal heap seen kv.2).1.isUndef with _ | _
    · simp only [hu, Bool.false_eq_true, if_neg, if_false]
      simp [noUndefFields, hu, ih1]
      exact ih2
    · simp only [hu, if_true]
      exact ih2
  · intro seen
    simp [scrubItems, noUndefItems]
  · intro seen it rest r1 ih1 ih2
    rw [scrubItems_cons]
    rcases hu : (scrubVal heap seen it).1.isUndef with _ | _
    · simp only [hu, Bool.false_eq_true, if_neg, if_false]
      simp [noUndefItems, hu, ih1]
      exact ih2
    · simp only [hu, if_true]
      exact ih2

/-! ## The serializer `safeStringify` (App.tsx, lines 57-64)

`JSON.stringify` is modelled per ECMA-262: it throws a `TypeError` on a
BigInt, returns the JavaScript value `undefined` (here `none`) when the
top-level value serializes to nothing (`undefined` itself), encodes an
`undefined` array entry as `null`, and skips object keys whose value
serializes to nothing.  String escaping is abstracted as plain
quoting. -/

mutual

def jsonStringify : SVal → Except Unit (Option String)
  | .sundef => .ok none
  | .snull => .ok (some "null")
  | .sbool b => .ok (some (if b then "true" else "false"))
  | .snum n => .ok (some (toString n))
  | .sstr s => .ok (some ("\"" ++ s ++ "\""))
  | .sbig _ => .error ()
  | .sfn _ => .ok none
  | .ssym _ => .ok none
  | .sarr xs =>
    match jsonItems xs with
    | .ok parts => .ok (some ("[" ++ String.intercalate "," parts ++ "]"))
    | .error e => .error e
  | .sobj kvs =>
    match jsonFields kvs with
    | .ok parts => .ok (some ("\x7b" ++ String.intercalate "," parts ++ "\x7d"))
    | .error e => .error e

def jsonItems : List SVal → Except Unit (List String)
  | [] => .ok []
  | x :: rest =>
    match jsonStringify x, jsonItems rest with
    | .ok s, .ok srest => .ok ((s.getD "null") :: srest)
    | .error e, _ => .error e
    | .ok _, .error e => .error e

def jsonFields : List (String × SVal) → Except Unit (List String)
  | [] => .ok []
  | kv :: rest =>
    match jsonStringify kv.2, jsonFields rest with
    | .ok none, .ok srest => .ok srest
    | .ok (some sv), .ok srest => .ok (("\"" ++ kv.1 ++ "\":" ++ sv) :: srest)
    | .error e, _ => .error e
    | .ok _, .error e => .error e

end

/-- The serializer `safeStringify`: sanitize, then encode, catching any
encoding exception and substituting the encoding of an empty object.
The `Option` result records that `JSON.stringify` can itself return the
JavaScript value `undefined` (`none`), which the function passes through
unchanged. -/
def safeStringify (heap : Heap) (v : JSVal) : Option String :=
  match jsonStringify (scrubVal heap ∅ v).1 with
  | .ok s => s
  | .error _ => some "\x7b\x7d"

/-! ## Domain model (types.ts) -/

inductive UserRole where
  | superAdmin
  | admin
  | teamMember
deriving DecidableEq

inductive UserStatus where
  | pending
  | approved
  | rejected
deriving DecidableEq

/-- Application user profile (types.ts `User`). -/
structure UserR where
  id : String
  name : String
  role : UserRole
  email : String
  status : UserStatus
  password : Option String
  createdAt : String
  phone : Option String
  photoUrl : Option String
  team : Option String
  hasSeenTour : Option Bool
deriving DecidableEq

/-- Prospect lifecycle status: the string union `'New' | 'Followed Up' |
'Member'` of types.ts. -/
inductive ProspectStatus where
  | isNew
  | followedUp
  | member
deriving DecidableEq

/-- A follow-up record (types.ts `FollowUp`). -/
structure FollowUpR where
  id : String
  date : String
  notes : String
  preacherName : String
deriving DecidableEq

/-- AI review of an outreach encounter (types.ts `AIReview`).  The
hunger level is carried as the raw string the AI returned, as at the
JavaScript runtime. -/
structure AIReviewR where
  hungerLevel : String
  suggestedVerse : String
  suggestedNextAction : String
  summary : String
deriving DecidableEq

structure CoordsR where
  lat : Int
  lng : Int
deriving DecidableEq

/-- A prospect record (types.ts `Prospect`). -/
structure ProspectR where
  id : String
  name : String
  phone : String
  manualAddress : Option String
  coordinates : Option CoordsR
  photoUrl : Option String
  preachingNotes : String
  aiReview : Option AIReviewR
  followUps : List FollowUpR
  timestamp : String
  preacherName : String
  status : ProspectStatus
  signifiedForBaptism : Bool
  assignedToUserId : Option String
  assignedToUserName : Option String
deriving DecidableEq

/-! ## AI analysis wrapper (geminiService.ts, `analyzePreachingNotes`)

The external call `ai.models.generateContent` sits outside the
function's `try` block, so a rejection of the API call propagates to the
caller.  The `try` only guards `JSON.parse(response.text || '{}')` and
the field accesses; a parse failure yields the fixed fallback review.
`AIBehavior` enumerates the relevant behaviours of the external
collaborator: the call raises, the call returns text that does not
parse as JSON, or it returns JSON parsed into (possibly missing)
fields. -/

inductive AIBehavior where
  | raises
  | unparsable
  | parsed (hungerLevel suggestedVerse suggestedNextAction summary : Option String)
deriving DecidableEq

/-- Fixed default review substituted when parsing the AI response fails
(geminiService.ts lines 38-43). -/
def parseFailureReview : AIReviewR :=
  { hungerLevel := "Medium"
    suggestedVerse := "Psalm 23:1"
    suggestedNextAction := "Visit again and build relationship."
    summary := "Notes were captured successfully." }

/-- JavaScript `x || d` on an optional string field: `undefined` and the
empty string are falsy. -/
def strOrDefault (x : Option String) (d : String) : String :=
  match x with
  | none => d
  | some "" => d
  | some s => s

def analyzePreachingNotes (b : AIBehavior) : Except Unit AIReviewR :=
  match b with
  | .raises => .error ()
  | .unparsable => .ok parseFailureReview
  | .parsed h v a s =>
    .ok { hungerLevel := strOrDefault h "Medium"
          suggestedVerse := strOrDefault v "John 3:16"
          suggestedNextAction := strOrDefault a "Follow up next week with a gospel tract."
          summary := strOrDefault s "Conversation completed." }

/-! ## New-outreach submission (NewOutreach.tsx, `handleSubmit`) -/

inductive AddressMode where
  | gps
  | manual
deriving DecidableEq

structure FormDataR where
  name : String
  phone : String
  addressMode : AddressMode
  manualAddress : String
  notes : String
  signifiedForBaptism : Bool
deriving DecidableEq

/-- Result of a submission: `saved` is the prospect passed to `onSave`
(and hence persisted via the active backend), if any; `alerted` records
the failure alert. -/
structure SubmitOutcome where
  saved : Option ProspectR
  alerted : Bool
deriving DecidableEq

def handleSubmit (b : AIBehavior) (formData : FormDataR) (coords : Option CoordsR)
    (photo : Option String) (currentUser : UserR) (newId now : String) :
    SubmitOutcome :=
  match analyzePreachingNotes b with
  | .error _ => { saved := none, alerted := true }
  | .ok aiResult =>
    { saved := some
        { id := newId
          name := formData.name
          phone := formData.phone
          preachingNotes := formData.notes
          aiReview := some aiResult
          followUps := []
          timestamp := now
          preacherName := currentUser.name
          status := .isNew
          signifiedForBaptism := formData.signifiedForBaptism
          manualAddress :=
            if formData.addressMode = .manual ∧ formData.manualAddress ≠ ""
              then some formData.manualAddress else none
          coordinates :=
            if formData.addressMode = .gps then coords else none
          photoUrl := photo
          assignedToUserId := none
          assignedToUserName := none }
      alerted := false }

/-! ## Authentication (Login.tsx `handleAction`, App.tsx listener)

`signInWithEmailAndPassword` / `createUserWithEmailAndPassword` are
external; their outcome is a parameter: `.ok uid` on success, `.error
code` on rejection (the code string is the Firebase error code; the
`err.message` fallback of the catch handler is modelled by the code
itself). -/

/-- Error-message mapping of the catch handler (Login.tsx lines
98-109). -/
def authErrorMessage (code : String) : String :=
  if code = "auth/unauthorized-domain" then "This domain is not authorized in Firebase."
  else if code = "auth/operation-not-allowed" then
    "Email/Password provider is not enabled in Firebase console."
  else if code = "auth/network-request-failed" then
    "Network error. Check your API key or internet connection."
  else code

/-- Observable outcome of the remote login branch of `handleAction`
(Login.tsx lines 70-79 and the catch handler).  `signedOut` records
whether `auth.signOut()` was invoked. -/
structure RemoteLoginOutcome where
  signedOut : Bool
  errorMsg : Option String
deriving DecidableEq

def handleActionRemoteLogin (signInResult : Except String String)
    (store : List UserR) : RemoteLoginOutcome :=
  match signInResult with
  | .error code => { signedOut := false, errorMsg := some (authErrorMessage code) }
  | .ok uid =>
    match store.find? (fun u => u.id == uid) with
    | some userData =>
      if userData.status ≠ .approved then
        { signedOut := true
          errorMsg := some (if userData.status = .pending
            then "Account awaiting approval." else "Access restricted.") }
      else { signedOut := false, errorMsg := none }
    | none => { signedOut := false, errorMsg := none }

/-- Observable outcome of the remote signup branch of `handleAction`
(Login.tsx lines 81-96).  `written` is the profile written to the
`users` collection, `usersSnapshot` the documents read just before the
write. -/
structure RemoteSignupOutcome where
  written : Option UserR
  successMsg : Option String
  errorMsg : Option String
deriving DecidableEq

def handleActionRemoteSignup (createResult : Except String String)
    (usersSnapshot : List UserR) (invitedRole : Option UserRole)
    (name email ts : String) : RemoteSignupOutcome :=
  let roleToAssign := invitedRole.getD .teamMember
  match createResult with
  | .error code => { written := none, successMsg := none
                     errorMsg := some (authErrorMessage code) }
  | .ok uid =>
    let isFirstUser := usersSnapshot.isEmpty
    let newUser : UserR :=
      { id := uid
        name := name
        email := email
        role := if isFirstUser then .superAdmin else roleToAssign
        status := if isFirstUser then .approved else .pending
        createdAt := ts
        password := none
        phone := none
        photoUrl := none
        team := none
        hasSeenTour := none }
    { written := some newUser
      successMsg := some (if isFirstUser then "SuperAdmin access granted!"
        else "Awaiting admin approval.")
      errorMsg := none }

inductive AuthMode where
  | login
  | signup
deriving DecidableEq

/-- Observable outcome of the local-mode branch of `handleAction`
(Login.tsx lines 113-144).  `usersAfter` is the users collection as
re-persisted to local storage, `localLogin` the user passed to
`onLocalLogin` (which becomes the active session user), if any. -/
structure LocalOutcome where
  usersAfter : List UserR
  localLogin : Option UserR
  errorMsg : Option String
  successMsg : Option String
deriving DecidableEq

def handleActionLocal (mode : AuthMode) (savedUsers : List UserR)
    (email name : String) (invitedRole : Option UserRole)
    (newId ts : String) : LocalOutcome :=
  let roleToAssign := invitedRole.getD .teamMember
  match mode with
  | .login =>
    match savedUsers.find? (fun u => u.email == email) with
    | some found =>
      if found.status = .approved then
        { usersAfter := savedUsers, localLogin := some found
          errorMsg := none, successMsg := none }
      else if found.status = .pending then
        { usersAfter := savedUsers, localLogin := none
          errorMsg := some "Account pending approval.", successMsg := none }
      else
        { usersAfter := savedUsers, localLogin := none
          errorMsg := some "User not found locally. Please Register.", successMsg := none }
    | none =>
      { usersAfter := savedUsers, localLogin := none
        errorMsg := some "User not found locally. Please Register.", successMsg := none }
  | .signup =>
    let isFirst := savedUsers.length = 0
    let newUser : UserR :=
      { id := newId
        name := name
        email := email
        role := if isFirst then .superAdmin else roleToAssign
        status := if isFirst then .approved else .pending
        createdAt := ts
        password := none
        phone := none
        photoUrl := none
        team := none
        hasSeenTour := none }
    if isFirst then
      { usersAfter := savedUsers ++ [newUser], localLogin := some newUser
        errorMsg := none, successMsg := none }
    else
      { usersAfter := savedUsers ++ [newUser], localLogin := none
        errorMsg := none
        successMsg := some "Registration complete. Awaiting SuperAdmin approval." }

/-- Observable outcome of one `onAuthStateChanged` event in App.tsx
(lines 83-105).  `userSet = some u?` means `setUser(u?)` was called,
`none` that the user state was left untouched (the catch branch);
`signedOut` records a forced `signOut(fbAuth)`. -/
structure AuthOutcome where
  userSet : Option (Option UserR)
  signedOut : Bool
  showTour : Bool
  permissionError : Bool
deriving DecidableEq

/-- One `onAuthStateChanged` event.  `firebaseUser` is the principal
reported by the identity collaborator (`none` when signed out);
`getDocResult` is the outcome of reading the `users` document for the
principal id: `.error ()` if the read throws, `.ok none` if no document
exists, `.ok (some u)` if the profile `u` was found. -/
def onAuthStateChangedCb (getDocResult : Except Unit (Option UserR))
    (firebaseUser : Option String) : AuthOutcome :=
  match firebaseUser with
  | some _ =>
    match getDocResult with
    | .error _ =>
      { userSet := none, signedOut := false, showTour := false, permissionError := true }
    | .ok (some userData) =>
      if userData.status = .approved then
        { userSet := some (some userData), signedOut := false
          showTour := userData.hasSeenTour = some false, permissionError := false }
      else
        { userSet := some none, signedOut := true
          showTour := false, permissionError := false }
    | .ok none =>
      { userSet := some none, signedOut := false
        showTour := false, permissionError := false }
  | none =>
    { userSet := some none, signedOut := false
      showTour := false, permissionError := false }

/-! ## Prospect mutations (ProspectDetail.tsx) -/

/-- Cyclic status toggle of `handleToggleStatus` (lines 67-74). -/
def nextStatusMap : ProspectStatus → ProspectStatus
  | .isNew => .followedUp
  | .followedUp => .member
  | .member => .isNew

def handleToggleStatus (prospect : ProspectR) : ProspectR :=
  { prospect with status := nextStatusMap prospect.status }

/-- Adding a follow-up (lines 20-37): prepends the new record and also
sets the status to `'Followed Up'`. -/
def handleAddFollowUp (prospect : ProspectR) (followUpNotes : String)
    (currentUser : UserR) (newId now : String) : ProspectR :=
  { prospect with
    followUps := { id := newId, date := now, notes := followUpNotes
                   preacherName := currentUser.name } :: prospect.followUps
    status := .followedUp }

def handleToggleBaptism (prospect : ProspectR) : ProspectR :=
  { prospect with signifiedForBaptism := !prospect.signifiedForBaptism }

def handleAssign (prospect : ProspectR) (userId : String)
    (allUsers : List UserR) : ProspectR :=
  if userId = "" then
    { prospect with assignedToUserId := none, assignedToUserName := none }
  else
    match allUsers.find? (fun u => u.id == userId) with
    | some target =>
      { prospect with assignedToUserId := some target.id
                      assignedToUserName := some target.name }
    | none => prospect

/-! ## Local patch path of `updateUserStatus` (App.tsx, lines 176-187)

On the local backend, `updateUserStatus` maps over the stored users and
replaces the matching record `u` by the JavaScript spread
`{ ...u, ...data }`.  Records are modelled at the JSON level as ordered
string-keyed field lists (unique keys, as for any JS object); the spread
keeps the keys of `u` in order with values overridden by `data` where
present, then appends the keys of `data` absent from `u`. -/

abbrev RecordJ := List (String × SVal)

/-- First value bound to a key, i.e. JavaScript property lookup. -/
def getField : RecordJ → String → Option SVal
  | [], _ => none
  | kv :: rest, k => if kv.1 = k then some kv.2 else getField rest k

/-- JavaScript object spread `{ ...u, ...data }`. -/
def spreadMerge (u data : RecordJ) : RecordJ :=
  u.map (fun kv => (kv.1, (getField data kv.1).getD kv.2)) ++
    data.filter (fun kv => (getField u kv.1).isNone)

/-- Test `u.id === userId` at the record level. -/
def idMatches (u : RecordJ) (userId : String) : Bool :=
  match getField u "id" with
  | some (.sstr s) => s == userId
  | _ => false

/-- Local branch of `updateUserStatus`: read-merge-write over the users
collection, patching only the record whose `id` field matches. -/
def updateUserStatus (prev : List RecordJ) (userId : String)
    (data : RecordJ) : List RecordJ :=
  prev.map (fun u => if idMatches u userId then spreadMerge u data else u)

/-! ### Field-lookup lemmas for the spread merge -/

theorem getField_append_some {l1 : RecordJ} (l2 : RecordJ) {k : String} {v : SVal}
    (h : getField l1 k = some v) : getField (l1 ++ l2) k = some v := by
  induction l1 with
  | nil => simp [getField] at h
  | cons kv rest ih =>
    by_cases hk : kv.1 = k
    · simp only [getField, if_pos hk] at h
      simpa [getField, hk] using h
    · simp only [getField, if_neg hk] at h
      simpa [getField, hk] using ih h

theorem getField_append_none {l1 : RecordJ} (l2 : RecordJ) {k : String}
    (h : getField l1 k = none) : getField (l1 ++ l2) k = getField l2 k := by
  induction l1 with
  | nil => simp [getField]
  | cons kv rest ih =>
    by_cases hk : kv.1 = k
    · simp [getField, hk] at h
    · simp only [getField, if_neg hk] at h
      simpa [getField, hk] using ih h

theorem getField_map_override (u data : RecordJ) (k : String) :
    getField (u.map (fun kv => (kv.1, (getField data kv.1).getD kv.2))) k
      = (getField u k).map (fun v => (getField data k).getD v) := by
  induction u with
  | nil => simp [getField]
  | cons kv rest ih =>
    by_cases hk : kv.1 = k
    · subst hk
      simp [getField]
    · simpa [getField, hk] using ih

theorem getField_filter_key (data : RecordJ) (p : String → Bool) (k : String) :
    getField (data.filter (fun kv => p kv.1)) k
      = if p k then getField data k else none := by
  induction data with
  | nil => simp [getField]
  | cons kv rest ih =>
    by_cases hk : kv.1 = k
    · subst hk
      rcases hp : p kv.1 with _ | _
      · simpa [List.filter_cons, hp, getField] using ih
      · simp [List.filter_cons, hp, getField]
    · rcases hp : p kv.1 with _ | _
      · simpa [List.filter_cons, hp, getField, hk] using ih
      · simpa [List.filter_cons, hp, getField, hk] using ih

/-- A key present in the patch takes the patch's value. -/
theorem spreadMerge_getField_some (u data : RecordJ) (k : String) (v : SVal)
    (h : getField data k = some v) :
    getField (spreadMerge u data) k = some v := by
  unfold spreadMerge
  rcases hu : getField u k with _ | w
  · rw [getField_append_none]
    · rw [getField_filter_key data (fun key => (getField u key).isNone) k]
      simp [hu, h]
    · simp [getField_map_override, hu]
  · apply getField_append_some
    rw [getField_map_override, hu]
    simp [h]

/-- A key absent from the patch keeps the stored record's value. -/
theorem spreadMerge_getField_none (u data : RecordJ) (k : String)
    (h : getField data k = none) :
    getField (spreadMerge u data) k = getField u k := by
  unfold spreadMerge
  rcases hu : getField u k with _ | w
  · rw [getField_append_none]
    · rw [getField_filter_key data (fun key => (getField u key).isNone) k]
      simp [hu, h]
    · simp [getField_map_override, hu]
  · apply getField_append_some
    rw [getField_map_override, hu]
    simp [h]

/-! ## Fixtures for concrete instantiations -/

def sampleUser : UserR :=
  { id := "u1", name := "Ann", role := .teamMember, email := "ann@example.org"
    status := .approved, password := none, createdAt := "2024-01-01"
    phone := none, photoUrl := none, team := none, hasSeenTour := none }

def pendingUser : UserR :=
  { id := "u2", name := "Bob", role := .teamMember, email := "bob@example.org"
    status := .pending, password := none, createdAt := "2024-01-02"
    phone := none, photoUrl := none, team := none, hasSeenTour := none }

def sampleForm : FormDataR :=
  { name := "Peter", phone := "123", addressMode := .gps, manualAddress := ""
    notes := "asked about baptism", signifiedForBaptism := false }

def sampleProspect : ProspectR :=
  { id := "p1", name := "Peter", phone := "123", manualAddress := none
    coordinates := none, photoUrl := none, preachingNotes := "notes"
    aiReview := none, followUps := [], timestamp := "t", preacherName := "Ann"
    status := .member, signifiedForBaptism := false
    assignedToUserId := none, assignedToUserName := none }

/-- Heap for a single non-plain object such as a `Date`. -/
def exoticHeap : Heap := [Node.exoticN "Date"]

/-- Heap for the plain object `{ n: 1n }` holding a BigInt, which
`scrub` passes through and `JSON.stringify` throws on. -/
def bigHeap : Heap := [Node.objN [("n", JSVal.vbig 1)]]

/-- Acyclic heap in which the same plain object (slot 1) is reachable
from two distinct positions of the root object: `{ x: shared, y: shared }`
with `shared = { a: 1 }`. -/
def dagHeap : Heap :=
  [Node.objN [("x", JSVal.ref 1), ("y", JSVal.ref 1)],
   Node.objN [("a", JSVal.vnum 1)]]

/-- Heap for the self-referencing object `s = { self: s, x: 7 }`. -/
def selfHeap : Heap := [Node.objN [("self", JSVal.ref 0), ("x", JSVal.vnum 7)]]

/-- Heap with a plain root holding one plain key and one key whose value
is a non-plain class instance. -/
def mixedHeap : Heap :=
  [Node.objN [("good", JSVal.vnum 1), ("bad", JSVal.ref 1)],
   Node.exoticN "LatLng"]

/-- Heap for the plain object `{ onClick: fn, good: 1 }` holding a
function value. -/
def fnHeap : Heap :=
  [Node.objN [("onClick", JSVal.vfn 0), ("good", JSVal.vnum 1)]]

/-! ## Claims -/

/-- Claim C1 (code bug).  The claim states that when the AI collaborator
raises or returns unparsable text, Prospect creation still succeeds with
the fixed default review.  The code satisfies this only for unparsable
text: when the AI call itself rejects, `handleSubmit`'s catch block
shows the alert "Something went wrong analyzing the notes. Attempting to
save without AI review." but never calls `onSave`, so no Prospect is
persisted — contradicting both the claim and the code's own alert
message.  This theorem evaluates both failure modes. -/
theorem handleSubmit_ai_failure :
    (handleSubmit .raises sampleForm none none sampleUser "p1" "t0").saved = none
    ∧ (handleSubmit .raises sampleForm none none sampleUser "p1" "t0").alerted = true
    ∧ ∃ p, (handleSubmit .unparsable sampleForm none none sampleUser "p1" "t0").saved = some p
        ∧ p.aiReview = some parseFailureReview :=
  ⟨rfl, rfl, _, rfl, rfl⟩

/-- Claim C2 (confirmed).  A profile with status Pending or Rejected
never reaches the Active session state, on every authentication path:
the `onAuthStateChanged` listener signs the principal out and sets the
session user to null; any session user it does set is Approved; the
remote login branch of `handleAction` forces a sign-out for a
non-Approved profile; the local login branch never logs in a
non-Approved profile; and any user logged in by the local branch is
Approved. -/
theorem approval_gating :
    (∀ (uid : String) (u : UserR), u.status = .pending ∨ u.status = .rejected →
        onAuthStateChangedCb (.ok (some u)) (some uid)
          = { userSet := some none, signedOut := true
              showTour := false, permissionError := false })
    ∧ (∀ (res : Except Unit (Option UserR)) (fu : Option String) (u : UserR),
        (onAuthStateChangedCb res fu).userSet = some (some u) → u.status = .approved)
    ∧ (∀ (uid : String) (store : List UserR) (u : UserR),
        store.find? (fun x => x.id == uid) = some u →
        u.status = .pending ∨ u.status = .rejected →
        (handleActionRemoteLogin (.ok uid) store).signedOut = true)
    ∧ (∀ (users : List UserR) (email name : String) (invited : Option UserRole)
        (newId ts : String) (u : UserR),
        users.find? (fun x => x.email == email) = some u →
        u.status = .pending ∨ u.status = .rejected →
        (handleActionLocal .login users email name invited newId ts).localLogin = none)
    ∧ (∀ (mode : AuthMode) (users : List UserR) (email name : String)
        (invited : Option UserRole) (newId ts : String) (u : UserR),
        (handleActionLocal mode users email name invited newId ts).localLogin = some u →
        u.status = .approved) := by
  refine ⟨?_, ?_, ?_, ?_, ?_⟩
  · intro uid u hst
    have hne : u.status ≠ .approved := by
      rcases hst with h | h <;> simp [h]
    simp [onAuthStateChangedCb, hne]
  · intro res fu u h
    cases fu with
    | none => simp [onAuthStateChangedCb] at h
    | some uid =>
      cases res with
      | error e => simp [onAuthStateChangedCb] at h
      | ok od =>
        cases od with
        | none => simp [onAuthStateChangedCb] at h
        | some userData =>
          by_cases hs : userData.status = .approved
          · simp only [onAuthStateChangedCb, if_pos hs] at h
            simp only [Option.some.injEq] at h
            rw [← h]
            exact hs
          · simp [onAuthStateChangedCb, hs] at h
  · intro uid store u hfind hst
    have hne : u.status ≠ .approved := by
      rcases hst with h | h <;> simp [h]
    simp [handleActionRemoteLogin, hfind, hne]
  · intro users email name invited newId ts u hfind hst
    rcases hst with h | h <;> simp [handleActionLocal, hfind, h]
  · intro mode users email name invited newId ts u h
    cases mode with
    | login =>
      rcases hfind : users.find? (fun x => x.email == email) with _ | found
      · simp [handleActionLocal, hfind] at h
      · by_cases hs : found.status = .approved
        · simp only [handleActionLocal, hfind, if_pos hs, Option.some.injEq] at h
          rw [← h]
          exact hs
        · by_cases hp : found.status = .pending
          · simp [handleActionLocal, hfind, hs, hp] at h
          · simp [handleActionLocal, hfind, hs, hp] at h
    | signup =>
      by_cases hl : users.length = 0
      · simp [handleActionLocal, hl] at h
        subst h
        rfl
      · simp [handleActionLocal, hl] at h

/-- Claim C2 witness: a concrete Pending profile is denied and signed
out by the listener. -/
theorem approval_gating_witness :
    onAuthStateChangedCb (.ok (some pendingUser)) (some "u2")
      = { userSet := some none, signedOut := true
          showTour := false, permissionError := false } :=
  approval_gating.1 "u2" pendingUser (Or.inl rfl)

/-- Claim C3 counterexample.  `safeStringify` applied to a non-plain
top-level object (e.g. `new Date()`): `scrub` replaces it by
`undefined`, `JSON.stringify(undefined)` returns the value `undefined`
without throwing, and `safeStringify` passes that through — so the
function returns `undefined` (`none`), not a string, refuting the claim
that every input yields a string. -/
theorem safeStringify_undefined_counterexample :
    safeStringify exoticHeap (JSVal.ref 0) = none := by
  simp [safeStringify, exoticHeap, scrubVal, jsonStringify, List.get?]

/-- Claim C3 (corrected).  `safeStringify` is total (never propagates an
exception); whenever textual encoding raises it returns the encoding of
an empty object, and whenever the encoder returns a result it returns
that result unchanged — a string for every encodable sanitized value,
but the JavaScript value `undefined` when the sanitized value encodes to
nothing (top-level `undefined`, e.g. a scrubbed-away non-plain
object). -/
theorem safeStringify_error_fallback (heap : Heap) (v : JSVal) :
    (jsonStringify (scrubVal heap ∅ v).1 = .error () →
      safeStringify heap v = some "\x7b\x7d")
    ∧ (∀ s, jsonStringify (scrubVal heap ∅ v).1 = .ok s →
      safeStringify heap v = s) := by
  constructor
  · intro h
    simp [safeStringify, h]
  · intro s h
    simp [safeStringify, h]

/-- Claim C3 witness: the object `{ n: 1n }` survives `scrub` with its
BigInt, `JSON.stringify` throws on it, and `safeStringify` returns
exactly the empty-object encoding. -/
theorem safeStringify_error_fallback_witness :
    safeStringify bigHeap (JSVal.ref 0) = some "\x7b\x7d" :=
  (safeStringify_error_fallback bigHeap (JSVal.ref 0)).1 (by
    simp [bigHeap, scrubVal, scrubFields, jsonStringify, jsonFields,
      SVal.isUndef, List.get?])

/-- Claim C4 (confirmed).  Registering into an empty Users collection
yields a SuperAdmin/Approved profile; registering into a non-empty
collection with no invited role yields a TeamMember/Pending profile —
on the remote signup path (written document) and the local signup path
(record appended to local storage) alike. -/
theorem first_user_bootstrap :
    (∀ (uid name email ts : String) (existing : List UserR) (invited : Option UserRole),
      (existing = [] →
        ∃ nu, (handleActionRemoteSignup (.ok uid) existing invited name email ts).written
            = some nu ∧ nu.role = .superAdmin ∧ nu.status = .approved)
      ∧ (existing ≠ [] → invited = none →
        ∃ nu, (handleActionRemoteSignup (.ok uid) existing invited name email ts).written
            = some nu ∧ nu.role = .teamMember ∧ nu.status = .pending))
    ∧ (∀ (email name newId ts : String) (users : List UserR) (invited : Option UserRole),
      (users = [] →
        ∃ nu, (handleActionLocal .signup users email name invited newId ts).usersAfter
            = users ++ [nu]
          ∧ (handleActionLocal .signup users email name invited newId ts).localLogin = some nu
          ∧ nu.role = .superAdmin ∧ nu.status = .approved)
      ∧ (users ≠ [] → invited = none →
        ∃ nu, (handleActionLocal .signup users email name invited newId ts).usersAfter
            = users ++ [nu]
          ∧ nu.role = .teamMember ∧ nu.status = .pending)) := by
  constructor
  · intro uid name email ts existing invited
    constructor
    · rintro rfl
      exact ⟨_, rfl, rfl, rfl⟩
    · intro hne hinv
      cases existing with
      | nil => exact absurd rfl hne
      | cons a l =>
        subst hinv
        exact ⟨_, rfl, rfl, rfl⟩
  · intro email name newId ts users invited
    constructor
    · rintro rfl
      exact ⟨_, rfl, rfl, rfl, rfl⟩
    · intro hne hinv
      cases users with
      | nil => exact absurd rfl hne
      | cons a l =>
        subst hinv
        exact ⟨_, rfl, rfl, rfl⟩

/-- Claim C4 witness: concrete first and subsequent registrations on
both paths. -/
theorem first_user_bootstrap_witness :
    (∃ nu, (handleActionRemoteSignup (.ok "u9") [] none "Ann" "a@x.org" "t").written
        = some nu ∧ nu.role = .superAdmin ∧ nu.status = .approved)
    ∧ (∃ nu, (handleActionRemoteSignup (.ok "u9") [sampleUser] none "Bob" "b@x.org" "t").written
        = some nu ∧ nu.role = .teamMember ∧ nu.status = .pending)
    ∧ (∃ nu, (handleActionLocal .signup [] "a@x.org" "Ann" none "id1" "t").usersAfter
        = [] ++ [nu]
      ∧ (handleActionLocal .signup [] "a@x.org" "Ann" none "id1" "t").localLogin = some nu
      ∧ nu.role = .superAdmin ∧ nu.status = .approved)
    ∧ (∃ nu, (handleActionLocal .signup [sampleUser] "b@x.org" "Bob" none "id2" "t").usersAfter
        = [sampleUser] ++ [nu] ∧ nu.role = .teamMember ∧ nu.status = .pending) :=
  ⟨(first_user_bootstrap.1 "u9" "Ann" "a@x.org" "t" [] none).1 rfl,
   (first_user_bootstrap.1 "u9" "Bob" "b@x.org" "t" [sampleUser] none).2
     (List.cons_ne_nil _ _) rfl,
   (first_user_bootstrap.2 "a@x.org" "Ann" "id1" "t" [] none).1 rfl,
   (first_user_bootstrap.2 "b@x.org" "Bob" "id2" "t" [sampleUser] none).2
     (List.cons_ne_nil _ _) rfl⟩

/-- Claim C5 counterexample.  Credential verification succeeds
(`firebaseUser` present, resp. `signInWithEmailAndPassword` resolves)
but no profile document exists: the listener sets the user to null and
the login handler reports nothing, yet neither invokes a sign-out —
`signedOut = false` refutes the claimed forced sign-out. -/
theorem missing_profile_no_signout_counterexample :
    onAuthStateChangedCb (.ok none) (some "u1")
      = { userSet := some none, signedOut := false
          showTour := false, permissionError := false }
    ∧ (handleActionRemoteLogin (.ok "u1") []).signedOut = false :=
  ⟨rfl, rfl⟩

/-- Claim C5 (corrected).  When credential verification succeeds but no
matching profile exists, the session is denied — the listener sets the
user state to null, and the login handler neither logs in nor errors —
but no sign-out is forced at the identity collaborator: the
authenticated-but-profileless principal remains signed in. -/
theorem missing_profile_denied_without_signout :
    (∀ (uid : String),
      onAuthStateChangedCb (.ok none) (some uid)
        = { userSet := some none, signedOut := false
            showTour := false, permissionError := false })
    ∧ (∀ (uid : String) (store : List UserR),
        store.find? (fun u => u.id == uid) = none →
        handleActionRemoteLogin (.ok uid) store
          = { signedOut := false, errorMsg := none }) := by
  constructor
  · intro uid
    rfl
  · intro uid store h
    simp [handleActionRemoteLogin, h]

/-- Claim C5 witness: the concrete empty store. -/
theorem missing_profile_denied_without_signout_witness :
    handleActionRemoteLogin (.ok "u7") [] = { signedOut := false, errorMsg := none } :=
  missing_profile_denied_without_signout.2 "u7" [] rfl

/-- Claim C6 (confirmed).  `scrub` is a total function on arbitrary
heaps, cyclic ones included (it is defined by well-founded recursion,
with no fuel); a reference to any object already in the visited set is
dropped (treated as `undefined`), and consequently sanitizing a plain
object yields an object value in which every field pointing back at the
object itself has been omitted. -/
theorem scrub_cycle_safe (heap : Heap) :
    (∀ (seen : Finset Nat) (b : Nat), b ∈ seen →
        scrubVal heap seen (.ref b) = (.sundef, seen))
    ∧ (∀ (a : Nat) (fields : List (String × JSVal)),
        heap.get? a = some (.objN fields) →
        ∃ out finalSeen, scrubVal heap ∅ (.ref a) = (.sobj out, finalSeen)
          ∧ ∀ k ∈ out.map Prod.fst,
              k ∈ ((fields.filter (fun kv => kv.2 != JSVal.ref a)).map Prod.fst)) := by
  constructor
  · intro seen b hb
    exact scrubVal_ref_of_mem heap hb
  · intro a fields hn
    have hmem : a ∉ (∅ : Finset Nat) := Finset.not_mem_empty a
    refine ⟨(scrubFields heap (insert a ∅) fields).1,
      (scrubFields heap (insert a ∅) fields).2,
      scrubVal_ref_obj heap hmem hn, ?_⟩
    intro k hk
    exact scrubFields_keys_drop_ref heap a fields (insert a ∅)
      (Finset.mem_insert_self a ∅) k hk

/-- Claim C6 witness: the self-referencing object `s = { self: s, x: 7 }`
sanitizes to an object whose surviving keys all come from non-self
fields. -/
theorem scrub_cycle_safe_witness :
    ∃ out finalSeen, scrubVal selfHeap ∅ (.ref 0) = (.sobj out, finalSeen)
      ∧ ∀ k ∈ out.map Prod.fst,
          k ∈ ((([("self", JSVal.ref 0), ("x", JSVal.vnum 7)]).filter
            (fun kv => kv.2 != JSVal.ref 0)).map Prod.fst) :=
  (scrub_cycle_safe selfHeap).2 0 [("self", JSVal.ref 0), ("x", JSVal.vnum 7)] rfl

/-- Claim C7 counterexample.  In the acyclic heap `{ x: shared, y: shared }`
with `shared = { a: 1 }` a plain sub-object is reachable from two
distinct positions, yet the sanitized result carries it only at the
first position — the key `y` is dropped entirely, because the WeakSet
still contains `shared` after the `x` subtree is finished.  This
refutes the claim that the set holds only the current recursion path
and that both positions carry the sub-object. -/
theorem scrub_shared_subobject_counterexample :
    (scrubVal dagHeap ∅ (.ref 0)).1
      = SVal.sobj [("x", SVal.sobj [("a", SVal.snum 1)])] := by
  simp [dagHeap, scrubVal, scrubItems, scrubFields, SVal.isUndef, List.get?]

/-- Claim C7 (corrected).  The cycle-tracking set is never pruned: every
call returns a superset of the set it received, the address of each
array or plain object that is scrubbed stays in the set after its
subtree is finished, and any reference to an address in the set is
dropped.  Hence in an acyclic graph where the same object is reachable
from two positions, only the first-visited position carries the
sanitized sub-object; the later occurrence is dropped. -/
theorem scrub_seen_accumulates (heap : Heap) :
    (∀ (seen : Finset Nat) (v : JSVal), seen ⊆ (scrubVal heap seen v).2)
    ∧ (∀ (seen : Finset Nat) (a : Nat) (elems : List JSVal),
        a ∉ seen → heap.get? a = some (.arrN elems) →
        a ∈ (scrubVal heap seen (.ref a)).2)
    ∧ (∀ (seen : Finset Nat) (a : Nat) (fields : List (String × JSVal)),
        a ∉ seen → heap.get? a = some (.objN fields) →
        a ∈ (scrubVal heap seen (.ref a)).2)
    ∧ (∀ (seen : Finset Nat) (a : Nat), a ∈ seen →
        (scrubVal heap seen (.ref a)).1 = .sundef) := by
  refine ⟨(scrub_seen_mono heap).1, ?_, ?_, ?_⟩
  · intro seen a elems ha hn
    rw [scrubVal_ref_arr heap ha hn]
    exact (scrub_seen_mono heap).2.2 (insert a seen) elems (Finset.mem_insert_self a seen)
  · intro seen a fields ha hn
    rw [scrubVal_ref_obj heap ha hn]
    exact (scrub_seen_mono heap).2.1 (insert a seen) fields (Finset.mem_insert_self a seen)
  · intro seen a ha
    rw [scrubVal_ref_of_mem heap ha]

/-- Claim C7 witness: in the shared-sub-object heap, slot 1 stays in the
visited set after being scrubbed once, and a later reference to it is
dropped. -/
theorem scrub_seen_accumulates_witness :
    1 ∈ (scrubVal dagHeap ∅ (.ref 1)).2
    ∧ (scrubVal dagHeap (insert 1 ∅) (.ref 1)).1 = SVal.sundef :=
  ⟨(scrub_seen_accumulates dagHeap).2.2.1 ∅ 1 [("a", JSVal.vnum 1)]
      (Finset.not_mem_empty 1) rfl,
   (scrub_seen_accumulates dagHeap).2.2.2 (insert 1 ∅) 1 (Finset.mem_insert_self 1 ∅)⟩

/-- Claim C8 counterexample.  `scrub`'s first guard tests `typeof obj
!== 'object'`, and a function value has `typeof` `"function"`, so it is
returned unchanged: sanitizing the plain object `{ onClick: fn, good: 1 }`
keeps the function in the result.  A function is neither a primitive
nor a plain array or mapping, and it is not replaced by `undefined`,
refuting the claim that the result contains only such values and that
every non-plain value becomes `undefined`. -/
theorem scrub_function_passthrough_counterexample :
    (scrubVal fnHeap ∅ (.ref 0)).1
      = SVal.sobj [("onClick", SVal.sfn 0), ("good", SVal.snum 1)] := by
  simp [fnHeap, scrubVal, scrubFields, SVal.isUndef, List.get?]

/-- Claim C8 (corrected).  Every value `scrub` produces satisfies the
sanitized-output contract — arrays carry no `undefined` entries and
objects no `undefined`-valued keys, recursively — and every non-plain
object is replaced by `undefined` at its position (and therefore, by the
first part, omitted from its parent container); but values whose
`typeof` is not `"object"` — functions and symbols — pass through
sanitization unchanged even though they are not plain data. -/
theorem scrub_sanitized_output (heap : Heap) :
    (∀ (seen : Finset Nat) (v : JSVal), noUndefInside (scrubVal heap seen v).1 = true)
    ∧ (∀ (seen : Finset Nat) (a : Nat) (tag : String), a ∉ seen →
        heap.get? a = some (.exoticN tag) →
        (scrubVal heap seen (.ref a)).1 = .sundef)
    ∧ (∀ (seen : Finset Nat) (f : Nat), scrubVal heap seen (.vfn f) = (.sfn f, seen))
    ∧ (∀ (seen : Finset Nat) (s : Nat), scrubVal heap seen (.vsym s) = (.ssym s, seen)) := by
  refine ⟨(scrub_noUndef heap).1, ?_, ?_, ?_⟩
  · intro seen a tag ha hn
    rw [scrubVal_ref_exotic heap ha hn]
  · intro seen f
    simp [scrubVal]
  · intro seen s
    simp [scrubVal]

/-- Claim C8 witness: the mapping with one plain key and one key holding
a non-plain class instance sanitizes to a clean value, the class
instance scrubs to `undefined`, and a function value passes through
sanitization unchanged. -/
theorem scrub_sanitized_output_witness :
    noUndefInside (scrubVal mixedHeap ∅ (.ref 0)).1 = true
    ∧ (scrubVal mixedHeap ∅ (.ref 1)).1 = SVal.sundef
    ∧ scrubVal mixedHeap ∅ (.vfn 3) = (SVal.sfn 3, ∅) :=
  ⟨(scrub_sanitized_output mixedHeap).1 ∅ (.ref 0),
   (scrub_sanitized_output mixedHeap).2.1 ∅ 1 "LatLng" (Finset.not_mem_empty 1) rfl,
   (scrub_sanitized_output mixedHeap).2.2.1 ∅ 3⟩

/-- Claim C9 counterexample.  Adding a follow-up to a prospect whose
status is Member changes the status (to FollowedUp), refuting the claim
that only the manual cyclic toggle changes `status`. -/
theorem addFollowUp_changes_status_counterexample :
    (handleAddFollowUp sampleProspect "visited again" sampleUser "f1" "t1").status
        ≠ sampleProspect.status
    ∧ (handleAddFollowUp sampleProspect "visited again" sampleUser "f1" "t1").status
        = .followedUp := by
  exact ⟨by decide, rfl⟩

/-- Claim C9 (corrected).  A Prospect's status changes through the
manual cyclic toggle New→FollowedUp→Member→New, and additionally adding
a follow-up always sets status to FollowedUp; toggling baptism interest
and changing (or clearing) the assignment leave status unchanged. -/
theorem prospect_status_transitions (p : ProspectR) (notes : String)
    (cu : UserR) (newId now userId : String) (allUsers : List UserR) :
    (handleToggleStatus p).status = nextStatusMap p.status
    ∧ (handleAddFollowUp p notes cu newId now).status = .followedUp
    ∧ (handleToggleBaptism p).status = p.status
    ∧ (handleAssign p userId allUsers).status = p.status := by
  refine ⟨rfl, rfl, rfl, ?_⟩
  unfold handleAssign
  split
  · rfl
  · split <;> rfl

/-- Claim C10 (confirmed).  The local patch path: the spread merge keeps
every field absent from the patch at its stored value and sets every
field present in the patch to the patch's value; `updateUserStatus`
leaves non-matching records untouched and replaces the matching record
by the merge. -/
theorem patch_frame_semantics :
    (∀ (u data : RecordJ) (k : String), getField data k = none →
        getField (spreadMerge u data) k = getField u k)
    ∧ (∀ (u data : RecordJ) (k : String) (v : SVal), getField data k = some v →
        getField (spreadMerge u data) k = some v)
    ∧ (∀ (prev : List RecordJ) (userId : String) (data : RecordJ) (i : Nat) (u : RecordJ),
        prev.get? i = some u → idMatches u userId = false →
        (updateUserStatus prev userId data).get? i = some u)
    ∧ (∀ (prev : List RecordJ) (userId : String) (data : RecordJ) (i : Nat) (u : RecordJ),
        prev.get? i = some u → idMatches u userId = true →
        (updateUserStatus prev userId data).get? i = some (spreadMerge u data)) := by
  refine ⟨spreadMerge_getField_none, spreadMerge_getField_some, ?_, ?_⟩
  · intro prev userId data i u hget hid
    have hget2 : prev[i]? = some u := by
      simpa [List.get?_eq_getElem?] using hget
    simp [updateUserStatus, List.getElem?_map, hget2, hid]
  · intro prev userId data i u hget hid
    have hget2 : prev[i]? = some u := by
      simpa [List.get?_eq_getElem?] using hget
    simp [updateUserStatus, List.getElem?_map, hget2, hid]

def storedUser : RecordJ :=
  [("id", .sstr "u1"), ("status", .sstr "Pending"), ("name", .sstr "Ann")]

def patchData : RecordJ := [("status", .sstr "Member")]

/-- Claim C10 witness: patching `{status:"Member"}` onto a stored record
changes only `status`; the other fields and the other records keep their
values. -/
theorem patch_frame_semantics_witness :
    getField (spreadMerge storedUser patchData) "name" = getField storedUser "name"
    ∧ getField (spreadMerge storedUser patchData) "status" = some (.sstr "Member")
    ∧ (updateUserStatus [storedUser] "u1" patchData).get? 0
        = some (spreadMerge storedUser patchData) :=
  ⟨patch_frame_semantics.1 storedUser patchData "name" (by simp [patchData, getField]),
   patch_frame_semantics.2.1 storedUser patchData "status" (.sstr "Member")
     (by simp [patchData, getField]),
   patch_frame_semantics.2.2.2 [storedUser] "u1" patchData 0 storedUser rfl
     (by simp [idMatches, storedUser, getField])⟩
